import Mathlib

/-!
# Verification of the Seton grocery tracker pipeline

A shallow embedding of the price-extraction, deduplication and
classification-cache pipeline of the repository, together with proofs of the
specification's claims about it.  Prices are modelled as exact rationals,
strings as Lean `String`/`List Char`.

Sources embedded here:
* `src/get_deals.py`   — price parsing (`clean_price`), row construction,
  `clean_dataframe`, the history merge (concat + `drop_duplicates`), and the
  AI-classification cache logic.
* `src/fix_database.py` — the duplicate remover.
* `src/dashboard.py`   — `normalize_price`, the display/denormalization branch
  of `calculate_savings`, rule matching and the deal threshold.
* `src/classifier.py`  — the shape of classification results.
-/

/-! ## Character and string utilities (Python `str` operations on the ASCII range) -/

/-- The character class `\d` of the Python regexes, i.e. `[0-9]`. -/
def isDig (c : Char) : Bool :=
  c = '0' || c = '1' || c = '2' || c = '3' || c = '4' ||
  c = '5' || c = '6' || c = '7' || c = '8' || c = '9'

/-- Whitespace as recognised by Python `str.strip` and the regex class `\s`
(ASCII part: space, tab, newline, carriage return, vertical tab, form feed). -/
def isPySpace (c : Char) : Bool :=
  c = ' ' || c = '\t' || c = '\n' || c = '\r' || c = '\x0b' || c = '\x0c'

/-- Python `str.lower` on a single character, on the ASCII range. -/
def lowerChar (c : Char) : Char :=
  if 'A' ≤ c ∧ c ≤ 'Z' then Char.ofNat (c.toNat + 32) else c

/-- Python `str.lower` (ASCII range). -/
def pyLower (l : List Char) : List Char := l.map lowerChar

/-- Python `str.strip()`: drop whitespace from both ends. -/
def pyStrip (l : List Char) : List Char :=
  ((l.dropWhile isPySpace).reverse.dropWhile isPySpace).reverse

/-- `str.replace('$', '')`: removing every occurrence of a single character
is a filter. -/
def removeDollar (l : List Char) : List Char := l.filter (fun c => c ≠ '$')

/-- `str.replace('Â¢', '')` from `src/get_deals.py` line 65: the removed
pattern is the two-character mojibake sequence `'Â'` `'¢'` (bytes
`c3 82 c2 a2` in the source), not the single cent sign. -/
def removeCent : List Char → List Char
  | [] => []
  | [c] => [c]
  | c₁ :: c₂ :: t =>
    if c₁ = 'Â' ∧ c₂ = '¢' then removeCent t else c₁ :: removeCent (c₂ :: t)

/-- Membership of `pat` as a contiguous sublist of `l` (Python `pat in s`). -/
def hasSubList (pat : List Char) : List Char → Bool
  | [] => pat.isEmpty
  | c :: t => pat.isPrefixOf (c :: t) || hasSubList pat t

/-- Python's substring test `pat in s`. -/
def strContains (s pat : String) : Bool := hasSubList pat.toList s.toList

/-- Python `str.lower` on a `String`. -/
def strLower (s : String) : String := String.mk (pyLower s.toList)

/-- Numeric value of a digit string (`int`, or the integer part of `float`). -/
def digitsToNat (l : List Char) : Nat :=
  l.foldl (fun a c => 10 * a + (c.toNat - 48)) 0

/-! ## PriceParser: `clean_price` of `src/get_deals.py` lines 58–86

The two regexes are embedded as deterministic matchers that return the
matched digit runs; the rational value of a match is computed separately by
`numValQ`.  For these particular patterns, greedy matching without
backtracking coincides with Python `re` semantics: after a maximal `\d+` run
the continuation can never start with a digit, so no shorter digit run can
succeed where the maximal one fails. -/

/-- Greedy `\d*`: split off the maximal leading digit run. -/
def takeDigits : List Char → List Char × List Char
  | [] => ([], [])
  | c :: t =>
    if isDig c then
      let p := takeDigits t
      (c :: p.1, p.2)
    else ([], c :: t)

/-- Greedy `\s*`. -/
def dropWs (l : List Char) : List Char := l.dropWhile isPySpace

/-- The alternation `(?:/|for)` of the multi-buy regex. -/
def matchSep : List Char → Option (List Char)
  | '/' :: t => some t
  | 'f' :: 'o' :: 'r' :: t => some t
  | _ => none

/-- The optional `\$?` of the multi-buy regex. -/
def skipDollar : List Char → List Char
  | '$' :: t => t
  | l => l

/-- The optional fraction `(?:\.\d+)?`: a dot followed by at least one digit,
otherwise no fraction. -/
def matchFrac (l : List Char) : Option (List Char) :=
  match l with
  | '.' :: t =>
    let p := takeDigits t
    if p.1.isEmpty then none else some p.1
  | _ => none

/-- Match of `(\d+)\s*(?:/|for)\s*\$?(\d+(?:\.\d+)?)` anchored at the head of
the list; returns (quantity digits, total digits, total fraction digits). -/
def matchMultiAt (l : List Char) : Option (List Char × List Char × Option (List Char)) :=
  let p1 := takeDigits l
  if p1.1.isEmpty then none else
  match matchSep (dropWs p1.2) with
  | none => none
  | some r3 =>
    let p2 := takeDigits (skipDollar (dropWs r3))
    if p2.1.isEmpty then none else
    some (p1.1, p2.1, matchFrac p2.2)

/-- `re.search` for the multi-buy pattern: leftmost matching position. -/
def searchMulti : List Char → Option (List Char × List Char × Option (List Char))
  | [] => none
  | c :: t =>
    match matchMultiAt (c :: t) with
    | some r => some r
    | none => searchMulti t

/-- Match of `[-+]?(?:\d*\.\d+|\d+)` anchored at the head of the list;
returns (sign is minus, integer digits, fraction digits). -/
def matchNumAt (l : List Char) : Option (Bool × List Char × Option (List Char)) :=
  let s : Bool × List Char :=
    match l with
    | '-' :: t => (true, t)
    | '+' :: t => (false, t)
    | t => (false, t)
  let p := takeDigits s.2
  match matchFrac p.2 with
  | some fd => some (s.1, p.1, some fd)
  | none => if p.1.isEmpty then none else some (s.1, p.1, none)

/-- First match of `re.findall(r"[-+]?(?:\d*\.\d+|\d+)", ...)`, i.e. the
value `matches[0]` used at line 82. -/
def searchNum : List Char → Option (Bool × List Char × Option (List Char))
  | [] => none
  | c :: t =>
    match matchNumAt (c :: t) with
    | some v => some v
    | none => searchNum t

/-- `float` of a matched numeric token (sign, integer digits, fraction). -/
def numValQ (neg : Bool) (d : List Char) (f : Option (List Char)) : ℚ :=
  (if neg then -1 else 1) *
    ((digitsToNat d : ℚ) +
      match f with
      | some fd => (digitsToNat fd : ℚ) / 10 ^ fd.length
      | none => 0)

/-- The cleaned text of line 65:
`str(raw_price).replace('$', '').replace('Â¢', '').lower().strip()`. -/
def cleanChars (s : String) : List Char :=
  pyStrip (pyLower (removeCent (removeDollar s.toList)))

/-- Lines 77–84: the fallback `re.findall` path of `clean_price`. -/
def numOf (clean : List Char) : Option ℚ :=
  (searchNum clean).map fun r => numValQ r.1 r.2.1 r.2.2

/-- Lines 69–84: unit price extracted from the cleaned text — the multi-buy
pattern with positive quantity takes precedence, otherwise the first numeric
token. -/
def priceOf (clean : List Char) : Option ℚ :=
  match searchMulti clean with
  | some (q, t, f) =>
    if 0 < digitsToNat q then some (numValQ false t f / (digitsToNat q : ℚ))
    else numOf clean
  | none => numOf clean

/-- `clean_price` of `src/get_deals.py` lines 58–86, applied to the first
truthy price field (`none` models the absence of any truthy price field; an
empty string is falsy in Python).  Returns (display text, unit price). -/
def clean_price (raw : Option String) : Option String × Option ℚ :=
  match raw with
  | none => (none, none)
  | some s =>
    if s = "" then (none, none)
    else (some s, priceOf (cleanChars s))

example : cleanChars "$10" = ['1', '0'] := by decide
example : searchMulti (cleanChars "$10") = none := by decide
example : searchNum (cleanChars "$10") = some (false, ['1', '0'], none) := by decide
example : searchMulti (cleanChars "2/$5") = some (['2'], ['5'], none) := by decide
example : searchMulti (cleanChars "3 for $10") = some (['3'], ['1', '0'], none) := by decide
example : searchMulti (cleanChars "99¢/100g") = none := by decide
example : searchNum (cleanChars "99¢/100g") = some (false, ['9', '9'], none) := by decide
example : searchNum (cleanChars "$2.99/lb") = some (false, ['2'], some ['9', '9']) := by decide
example : searchNum (cleanChars "price at deli") = none := by decide
example : searchMulti (cleanChars "price at deli") = none := by decide

/-! ## Data model: a row of `seton_grocery_history.csv` -/

/-- One row of the persisted history (section 6 of the spec; built at
`src/get_deals.py` lines 148–156 and enriched at lines 208–217). -/
structure Row where
  Date : Nat
  Store : String
  Original_Name : String
  Item : String
  Price_Text : String
  Price_Value : ℚ
  Valid_Until : String
  Category : String
  Is_Deal : Bool
deriving DecidableEq, Repr

/-- Row construction of `src/get_deals.py` lines 143–156: the price field is
run through `clean_price`; a falsy display text becomes `"Check Store"`, a
missing unit price becomes the sentinel `0.0`. -/
def mkDeal (today : Nat) (store name : String) (rawPrice : Option String)
    (validTo : String) : Row :=
  let p := clean_price rawPrice
  { Date := today
    Store := store
    Original_Name := name
    Item := name
    Price_Text :=
      match p.1 with
      | some t => if t = "" then "Check Store" else t
      | none => "Check Store"
    Price_Value := (p.2).getD 0
    Valid_Until := validTo
    Category := "Uncategorized"
    Is_Deal := false }

/-- Line 90 of `src/get_deals.py` (`clean_dataframe`):
`df = df[df['Price_Value'] > 0].copy()` — every row whose price value is not
positive is dropped before the frame is saved.  The remaining steps of
`clean_dataframe` (title-casing, date truncation, price-text formatting and
sorting) never drop a row. -/
def clean_dataframe_price_filter (l : List Row) : List Row :=
  l.filter fun r => 0 < r.Price_Value

/-! ## HistoryMerger: concat + `drop_duplicates(keep='first')`

`pandas.drop_duplicates(subset=k)` with the default `keep='first'` keeps, for
every key, the first row of the frame carrying that key. -/

/-- `drop_duplicates(subset := key, keep := 'first')`: the accumulator holds
the keys already seen. -/
def dedupAux {α κ : Type} [DecidableEq κ] (key : α → κ) (seen : List κ) :
    List α → List α
  | [] => []
  | r :: rs =>
    if key r ∈ seen then dedupAux key seen rs
    else r :: dedupAux key (key r :: seen) rs

/-- `drop_duplicates` on a whole list. -/
def dedupBy {α κ : Type} [DecidableEq κ] (key : α → κ) (l : List α) : List α :=
  dedupAux key [] l

/-- The uniqueness key of the merge in `src/get_deals.py` line 241:
`['Store', 'Original_Name', 'Price_Text', 'Valid_Until']`. -/
def keyGD (r : Row) : String × String × String × String :=
  (r.Store, r.Original_Name, r.Price_Text, r.Valid_Until)

/-- The uniqueness key of `src/fix_database.py` line 67:
`dedupe_cols = ['Store', 'Item', 'Price_Text', 'Valid_Until']`. -/
def keyFix (r : Row) : String × String × String × String :=
  (r.Store, r.Item, r.Price_Text, r.Valid_Until)

/-- The history merge of `src/get_deals.py` lines 229–242: concatenate the
existing history with the freshly scraped batch, then
`drop_duplicates(subset=['Store','Original_Name','Price_Text','Valid_Until'])`
(keep='first').  A missing history file is the empty list. -/
def merge_history (hist batch : List Row) : List Row :=
  dedupBy keyGD (hist ++ batch)

/-- The duplicate remover of `src/fix_database.py` lines 62–71:
`df.drop_duplicates(subset=dedupe_cols, keep='first')`. -/
def fix_database_dedupe (df : List Row) : List Row :=
  dedupBy keyFix df

/-- Number of rows of `l` carrying the key `k`. -/
def countKey (l : List Row) (k : String × String × String × String) : Nat :=
  (l.filter fun r => keyGD r = k).length

/-! ## UnitNormalizer and DealEvaluator: `src/dashboard.py` -/

/-- `get_rules()` of `src/dashboard.py` lines 143–167, as the ordered list of
(match keyword, benchmark key, category) in dictionary insertion order —
`for k in rules` iterates in exactly this order. -/
def get_rules : List (String × String × String) :=
  [("ground beef", "Ground beef, per kilogram 5", "Meat 🥩"),
   ("steak", "Beef striploin cuts, per kilogram 5", "Meat 🥩"),
   ("roast", "Beef rib cuts, per kilogram 5", "Meat 🥩"),
   ("pork loin", "Pork loin cuts, per kilogram 5", "Meat 🥩"),
   ("bacon", "Bacon, 500 grams 6", "Meat 🥩"),
   ("chicken", "Chicken breasts, per kilogram 5", "Meat 🥩"),
   ("ham", "Pork loin cuts, per kilogram 5", "Meat 🥩"),
   ("butter", "Butter, 454 grams 5", "Dairy 🧀"),
   ("milk", "Milk, 4 litres 5", "Dairy 🧀"),
   ("cheese", "Block cheese, 500 grams 6", "Dairy 🧀"),
   ("yogurt", "Yogurt, 500 grams 6", "Dairy 🧀"),
   ("potatoes", "Potatoes, 4.54 kilograms 5", "Produce 🥦"),
   ("carrots", "Carrots, 1.36 kilograms 6", "Produce 🥦"),
   ("apples", "Apples, per kilogram 5", "Produce 🥦"),
   ("mandarin", "Oranges, per kilogram 5", "Produce 🥦"),
   ("oranges", "Oranges, per kilogram 5", "Produce 🥦"),
   ("squash", "Carrots, 1.36 kilograms 6", "Produce 🥦"),
   ("sweet potato", "Sweet potatoes, per kilogram 5", "Produce 🥦"),
   ("pasta", "Dry or fresh pasta, 500 grams 6", "Pantry 🥫"),
   ("flour", "Wheat flour, 2.5 kilograms 6", "Pantry 🥫"),
   ("coconut milk", "Canned soup, 284 millilitres 6", "Pantry 🥫"),
   ("salmon", "Canned salmon, 213 grams 6", "Pantry 🥫")]

/-- The per-pound decision of `normalize_price` (`src/dashboard.py`
lines 172–174): `is_pound = "/lb" in price_txt`, then the heuristic
`price < 15 and "ea" not in price_txt` turns it on unless the rule is a
ribs rule. -/
def norm_is_pound (price : ℚ) (price_txt rule_key : String) : Bool :=
  let p := strContains price_txt "/lb"
  if !p && decide (price < 15) && !strContains price_txt "ea" then
    (if !strContains rule_key "ribs" then true else p)
  else p

/-- `normalize_price` of `src/dashboard.py` lines 169–178.  Each overwrite
uses the raw `price` (not the running value), so exactly the last matching
conversion wins. -/
def normalize_price (price : ℚ) (price_txt item_name rule_key : String) : ℚ :=
  let norm₁ :=
    if strContains price_txt "100 g" || strContains price_txt "100g" then
      price * 10
    else price
  let norm₂ := if norm_is_pound price price_txt rule_key then price * 2.2046 else norm₁
  if strContains rule_key "mandarin" then price / 1.81
  else if strContains rule_key "ribs" && strContains item_name "swiss" then
    price / 0.6
  else norm₂

/-- The per-pound decision of the display branch of `calculate_savings`
(`src/dashboard.py` lines 238–239): `is_pound = "/lb" in price_txt or
(price < 15 and "ea" not in price_txt and category in ["Meat 🥩", "Produce 🥦"])`,
then `if "ribs" in item and price > 8: is_pound = False`. -/
def disp_is_pound (price : ℚ) (price_txt item category : String) : Bool :=
  let p := strContains price_txt "/lb" ||
    (decide (price < 15) && !strContains price_txt "ea" &&
      (category == "Meat 🥩" || category == "Produce 🥦"))
  if strContains item "ribs" && decide ((8 : ℚ) < price) then false else p

/-- The display projection of the benchmark, `src/dashboard.py`
lines 236–252: returns (display benchmark, unit label). -/
def display_info (bench price : ℚ) (price_txt item matched_key category : String) :
    ℚ × String :=
  if disp_is_pound price price_txt item category then (bench / 2.2046, "/lb")
  else if strContains matched_key "mandarin" then (bench * 1.81, "(4lb Box)")
  else if strContains matched_key "ribs" && strContains item "swiss" then
    (bench * 0.6, "(600g)")
  else if strContains price_txt "100 g" || strContains price_txt "100g" then
    (bench / 10, "/100g")
  else (bench, "")

/-- The display benchmark alone (`display_bench` in the source). -/
def display_bench (bench price : ℚ) (price_txt item matched_key category : String) : ℚ :=
  (display_info bench price price_txt item matched_key category).1

/-- Rule matching of `calculate_savings`, `src/dashboard.py` lines 211–218:
first keyword contained in the item wins, except that the salmon rule is
skipped (`continue`) for non-canned expensive salmon. -/
def matchRule (item : String) (price : ℚ) :
    List (String × String × String) → Option (String × String × String)
  | [] => none
  | (k, sk, cat) :: rest =>
    if strContains item k then
      if k == "salmon" && !strContains item "canned" && !strContains item "gold seal"
          && decide ((6 : ℚ) < price) then
        matchRule item price rest
      else some (k, sk, cat)
    else matchRule item price rest

/-- Benchmark lookup with default 0 (`stats_benchmarks.get(stats_key, 0)`). -/
def statsGet (stats : List (String × ℚ)) (k : String) : ℚ :=
  match stats.lookup k with
  | some v => v
  | none => 0

/-- Benchmark selection of `src/dashboard.py` lines 222–230: the local
(Seton) average overrides the national one when present and positive.
Returns (final benchmark, source label). -/
def final_bench (stats locb : List (String × ℚ)) (matched_key stats_key : String) :
    ℚ × String :=
  let nat := statsGet stats stats_key
  match locb.lookup matched_key with
  | some la => if 0 < la then (la, "Seton Avg") else (nat, "Nat'l Avg")
  | none => (nat, "Nat'l Avg")

/-- One surfaced deal of `calculate_savings` (the dict appended at
lines 255–261).  The f-string `Price` field is pure formatting of
`Raw_Price` and `Unit` and is not modelled. -/
structure DealOut where
  Date : Nat
  Store : String
  Category : String
  Item : String
  Raw_Price : ℚ
  Savings : ℚ
  Benchmark : ℚ
  Unit : String
  Source : String
  Search_Term : String
deriving DecidableEq, Repr

/-- The body of the `calculate_savings` loop of `src/dashboard.py`
lines 203–261 for a single row: `none` when the row is skipped or not
surfaced, `some` with the appended record otherwise.  The item and price
text are lowercased on entry (lines 204–206). -/
def calculate_savings_row (stats locb : List (String × ℚ)) (row : Row) :
    Option DealOut :=
  let item := strLower row.Item
  let price := row.Price_Value
  let price_txt := strLower row.Price_Text
  if strContains item "water" || strContains item "foil" || strContains item "pan" then
    none
  else if strContains item "coffee" && strContains item "roast" then none
  else
    match matchRule item price get_rules with
    | none => none
    | some (k, sk, cat) =>
      if 0 < price then
        let fb := final_bench stats locb k sk
        if 0 < fb.1 then
          let norm := normalize_price price price_txt item k
          let savings := (fb.1 - norm) / fb.1
          let disp := display_info fb.1 price price_txt item k cat
          if (0.10 : ℚ) < savings || strContains item "squash" then
            some { Date := row.Date, Store := row.Store, Category := cat
                   Item := row.Item, Raw_Price := price, Savings := savings * 100
                   Benchmark := disp.1, Unit := disp.2
                   Source := fb.2
                   Search_Term := ((sk.splitOn ",").headD sk) }
          else none
        else none
      else none

/-- `calculate_savings` of `src/dashboard.py` lines 199–262: the rows of the
result frame, in input order. -/
def calculate_savings (stats locb : List (String × ℚ)) (rows : List Row) :
    List DealOut :=
  rows.filterMap (calculate_savings_row stats locb)

/-! ## Classifier Cache: `src/get_deals.py` lines 158–219, `src/classifier.py` -/

/-- A `GroceryItem` returned by the external classifier
(`src/classifier.py` lines 25–30). -/
structure GroceryItem where
  original_name : String
  clean_name : String
  category : String
  is_deal : Bool
deriving DecidableEq, Repr

/-- A value of `known_cache`: `{'Item': ..., 'Category': ...}`
(`src/get_deals.py` lines 172–174 and 201–205). -/
structure CacheEntry where
  Item : String
  Category : String
deriving DecidableEq, Repr

/-- The Python dict `known_cache` as a finite map; `d[k] = v` overwrites. -/
def dictInsert (d : String → Option CacheEntry) (k : String) (v : CacheEntry) :
    String → Option CacheEntry :=
  fun n => if n = k then some v else d n

/-- `range(0, len(l), n)` batching: split into chunks of size `n`. -/
def chunksOf (n : Nat) (l : List String) : List (List String) :=
  if h : 0 < n ∧ l ≠ [] then
    l.take n :: chunksOf n (l.drop n)
  else if l = [] then [] else [l]
termination_by l.length
decreasing_by
  simp only [List.length_drop]
  have hl : 0 < l.length := List.length_pos.mpr h.2
  have hn : 0 < n := h.1
  omega

/-- Lines 189–198: run the classifier batch by batch; a failing call
(`except` branch) contributes nothing and does not abort the remaining
batches.  `classify` models `categorize_groceries`, with `none` for a raised
exception. -/
def runBatches (classify : List String → Option (List GroceryItem)) :
    List (List String) → List GroceryItem
  | [] => []
  | b :: rest =>
    (match classify b with
     | some rs => rs
     | none => []) ++ runBatches classify rest

/-- Lines 200–205: merge the AI results into the cache.  Note that only
`category` and `clean_name` are stored — the classifier's `is_deal` flag is
dropped here. -/
def updateCache (cache : String → Option CacheEntry) (results : List GroceryItem) :
    String → Option CacheEntry :=
  results.foldl
    (fun c item => dictInsert c item.original_name
      { Item := item.clean_name, Category := item.category })
    cache

/-- Lines 208–217: apply the cache to one deal row — a cache hit sets the
category, the clean name and `Is_Deal = True`; a miss sets
`Category = "Uncategorized"` and `Is_Deal = False`. -/
def applyCache (cache : String → Option CacheEntry) (deal : Row) : Row :=
  match cache deal.Original_Name with
  | some data =>
    { deal with Category := data.Category, Item := data.Item, Is_Deal := true }
  | none => { deal with Category := "Uncategorized", Is_Deal := false }

/-- Lines 179–205: the cache after a run — unknown names (not keys of the
loaded cache) are batched (batch_size = 100) through the classifier and the
successful results merged in.  `uniqueNames` stands for
`list(set(d['Original_Name'] for d in new_deals))`, whose order Python does
not specify; it is kept as an explicit parameter. -/
def pipelineCache (cache₀ : String → Option CacheEntry) (uniqueNames : List String)
    (classify : List String → Option (List GroceryItem)) :
    String → Option CacheEntry :=
  let unknown := uniqueNames.filter fun n => (cache₀ n).isNone
  updateCache cache₀ (runBatches classify (chunksOf 100 unknown))

/-- Lines 158–219 end to end: categorize every deal row through the cache. -/
def categorizeDeals (cache₀ : String → Option CacheEntry) (uniqueNames : List String)
    (classify : List String → Option (List GroceryItem)) (deals : List Row) :
    List Row :=
  deals.map (applyCache (pipelineCache cache₀ uniqueNames classify))

/-! ## Lemmas about `drop_duplicates(keep='first')` -/

section Dedup

variable {α κ : Type} [DecidableEq κ] (key : α → κ)

lemma mem_dedupAux_not_seen {seen : List κ} {l : List α} {r : α}
    (h : r ∈ dedupAux key seen l) : key r ∉ seen := by
  induction l generalizing seen with
  | nil => simp [dedupAux] at h
  | cons a t ih =>
    by_cases hk : key a ∈ seen
    · simp only [dedupAux, if_pos hk] at h
      exact ih h
    · simp only [dedupAux, if_neg hk, List.mem_cons] at h
      rcases h with h | h
      · subst h; exact hk
      · have := ih h
        intro hc
        exact this (List.mem_cons_of_mem _ hc)

lemma dedupAux_congr {seen₁ seen₂ : List κ} (l : List α)
    (h : ∀ k, k ∈ seen₁ ↔ k ∈ seen₂) :
    dedupAux key seen₁ l = dedupAux key seen₂ l := by
  induction l generalizing seen₁ seen₂ with
  | nil => rfl
  | cons a t ih =>
    by_cases hk : key a ∈ seen₁
    · rw [dedupAux, if_pos hk, dedupAux, if_pos ((h _).mp hk)]
      exact ih h
    · rw [dedupAux, if_neg hk, dedupAux, if_neg (fun hc => hk ((h _).mpr hc))]
      refine congrArg _ (ih ?_)
      intro k
      simp only [List.mem_cons]
      exact or_congr Iff.rfl (h k)

lemma dedupAux_append (seen : List κ) (xs ys : List α) :
    dedupAux key seen (xs ++ ys) =
      dedupAux key seen xs ++ dedupAux key (xs.map key ++ seen) ys := by
  induction xs generalizing seen with
  | nil => simp [dedupAux]
  | cons a t ih =>
    by_cases hk : key a ∈ seen
    · rw [List.cons_append, dedupAux, if_pos hk, dedupAux, if_pos hk, ih]
      refine congrArg _ (dedupAux_congr key ys ?_)
      intro k
      simp only [List.map_cons, List.cons_append, List.mem_cons, List.mem_append]
      constructor
      · tauto
      · rintro (h | h | h) <;> first | (subst h; exact Or.inr hk) | tauto
    · rw [List.cons_append, dedupAux, if_neg hk, dedupAux, if_neg hk, ih,
        List.cons_append]
      refine congrArg _ (congrArg _ (dedupAux_congr key ys ?_))
      intro k
      simp only [List.map_cons, List.cons_append, List.mem_cons, List.mem_append]
      tauto

lemma mem_map_key_dedupAux {seen : List κ} {l : List α} {k : κ} :
    k ∈ (dedupAux key seen l).map key ↔ k ∈ l.map key ∧ k ∉ seen := by
  induction l generalizing seen with
  | nil => simp [dedupAux]
  | cons a t ih =>
    by_cases hk : key a ∈ seen
    · rw [dedupAux, if_pos hk]
      simp only [List.map_cons, List.mem_cons, ih]
      constructor
      · tauto
      · rintro ⟨h | h, hs⟩
        · subst h; exact absurd hk hs
        · exact ⟨h, hs⟩
    · rw [dedupAux, if_neg hk]
      simp only [List.map_cons, List.mem_cons, ih, List.mem_cons]
      constructor
      · rintro (h | ⟨h1, h2⟩)
        · subst h; exact ⟨Or.inl rfl, hk⟩
        · exact ⟨Or.inr h1, fun hc => h2 (Or.inr hc)⟩
      · rintro ⟨h | h, hs⟩
        · exact Or.inl h
        · by_cases hak : k = key a
          · exact Or.inl hak
          · exact Or.inr ⟨h, fun hc => hc.elim (fun e => hak e) hs⟩

lemma dedupAux_idem (seen : List κ) (l : List α) :
    dedupAux key seen (dedupAux key seen l) = dedupAux key seen l := by
  induction l generalizing seen with
  | nil => rfl
  | cons a t ih =>
    by_cases hk : key a ∈ seen
    · rw [dedupAux, if_pos hk, ih]
    · rw [dedupAux, if_neg hk, dedupAux, if_neg hk, ih]

lemma dedupAux_eq_nil_of_seen (seen : List κ) (l : List α)
    (h : ∀ a ∈ l, key a ∈ seen) : dedupAux key seen l = [] := by
  induction l generalizing seen with
  | nil => rfl
  | cons a t ih =>
    rw [dedupAux, if_pos (h a (List.mem_cons_self a t))]
    exact ih seen fun b hb => h b (List.mem_cons_of_mem _ hb)

lemma dedupAux_pairwise (seen : List κ) (l : List α) :
    (dedupAux key seen l).Pairwise fun a b => key a ≠ key b := by
  induction l generalizing seen with
  | nil => exact List.Pairwise.nil
  | cons a t ih =>
    by_cases hk : key a ∈ seen
    · rw [dedupAux, if_pos hk]; exact ih seen
    · rw [dedupAux, if_neg hk]
      refine List.Pairwise.cons ?_ (ih _)
      intro b hb hab
      exact (mem_dedupAux_not_seen key hb) (hab ▸ List.mem_cons_self _ _)

lemma dedupAux_keeps_first {seen : List κ} {l : List α} {r : α}
    (h : r ∈ dedupAux key seen l) :
    l.find? (fun x => decide (key x = key r)) = some r := by
  induction l generalizing seen with
  | nil => simp [dedupAux] at h
  | cons a t ih =>
    by_cases hk : key a ∈ seen
    · rw [dedupAux, if_pos hk] at h
      have hr := mem_dedupAux_not_seen key h
      have hne : key a ≠ key r := fun e => hr (e ▸ hk)
      rw [List.find?_cons_of_neg _ (by simpa using hne)]
      exact ih h
    · rw [dedupAux, if_neg hk, List.mem_cons] at h
      rcases h with h | h
      · subst h
        rw [List.find?_cons_of_pos _ (by simp)]
      · have hr := mem_dedupAux_not_seen key h
        have hne : key a ≠ key r := by
          intro e
          exact hr (e ▸ List.mem_cons_self _ _)
        rw [List.find?_cons_of_neg _ (by simpa using hne)]
        exact ih h

end Dedup

/-! ## Sample rows for witnesses and counterexamples -/

/-- A concrete history row: "Ground Beef Lean 1kg" at $9.99 (spec section 8,
end-to-end scenario), scraped on day 1. -/
def rowGB1 : Row :=
  { Date := 1, Store := "Sobeys", Original_Name := "Ground Beef Lean 1kg"
    Item := "Ground Beef Lean 1Kg", Price_Text := "$9.99", Price_Value := 999/100
    Valid_Until := "2025-11-20", Category := "Meat & Seafood", Is_Deal := true }

/-- The same deal scraped again on day 8: identical store, name, price text
and validity — only the scrape date differs. -/
def rowGB2 : Row := { rowGB1 with Date := 8 }

/-! ## C1 — uniqueness of the merge key after every merge -/

/-- C1. After every merge of a freshly scraped batch into the persisted
history, the uniqueness key (Store, item-identity, Price_Text, Valid_Until)
is unique across the resulting history — for `merge_history` of
`src/get_deals.py` (identity = `Original_Name`) and for
`fix_database_dedupe` of `src/fix_database.py` (identity = `Item`) — and the
end-to-end scenario: a row with the same store, price text and validity
scraped on two different dates yields exactly one row after two merge runs. -/
theorem C1_merge_key_unique :
    (∀ hist batch : List Row,
      (merge_history hist batch).Pairwise fun a b => keyGD a ≠ keyGD b) ∧
    (∀ df : List Row,
      (fix_database_dedupe df).Pairwise fun a b => keyFix a ≠ keyFix b) ∧
    (∀ r₁ r₂ : Row, keyGD r₁ = keyGD r₂ →
      countKey (merge_history (merge_history [] [r₁]) [r₂]) (keyGD r₁) = 1) := by
  refine ⟨fun hist batch => dedupAux_pairwise keyGD [] _,
    fun df => dedupAux_pairwise keyFix [] _, fun r₁ r₂ hk => ?_⟩
  have h1 : merge_history [] [r₁] = [r₁] := by
    simp [merge_history, dedupBy, dedupAux]
  have h2 : merge_history [r₁] [r₂] = [r₁] := by
    simp only [merge_history, dedupBy, List.cons_append, List.nil_append, dedupAux,
      List.not_mem_nil, if_false, List.mem_cons, List.not_mem_nil, or_false]
    rw [if_pos hk.symm]
  rw [h1, h2, countKey]
  simp

/-- Witness for C1: the end-to-end scenario at the two concrete
"Ground Beef Lean 1kg $9.99" rows scraped on days 1 and 8. -/
theorem C1_witness :
    keyGD rowGB1 = keyGD rowGB2 ∧
    countKey (merge_history (merge_history [] [rowGB1]) [rowGB2]) (keyGD rowGB1) = 1 :=
  ⟨by decide, C1_merge_key_unique.2.2 rowGB1 rowGB2 (by decide)⟩

/-! ## C2 — idempotence of the merge -/

/-- C2. The history merge is idempotent: merging the batch `batch` into
`hist` and then merging `batch` again into the result equals merging it
once. -/
theorem C2_merge_idempotent (hist batch : List Row) :
    merge_history (merge_history hist batch) batch = merge_history hist batch := by
  unfold merge_history dedupBy
  rw [dedupAux_append, dedupAux_idem]
  have hnil : dedupAux keyGD ((dedupAux keyGD [] (hist ++ batch)).map keyGD ++ []) batch
      = [] := by
    refine dedupAux_eq_nil_of_seen _ _ _ fun b hb => ?_
    rw [List.append_nil]
    refine (mem_map_key_dedupAux keyGD).mpr ?_
    refine ⟨?_, List.not_mem_nil _⟩
    rw [List.map_append]
    exact List.mem_append_right _ (List.mem_map_of_mem keyGD hb)
  rw [hnil, List.append_nil]

/-! ## C3 — which row survives a key collision -/

/-- C3 counterexample.  The claim says a collision on the dedup key keeps the
row preferred by (most recently classified, newest scrape date, non-null
sub-category), via a descending sort before deduplication, independently of
input row order.  In the code there is no such sort: `keep='first'` keeps the
concatenation-order first row.  Here the history row scraped on day 1
survives against the identical batch row scraped on day 8 — the *oldest*
scrape date wins — and swapping the input order changes the surviving row. -/
theorem C3_counterexample :
    merge_history [rowGB1] [rowGB2] = [rowGB1] ∧
    rowGB1.Date < rowGB2.Date ∧
    merge_history [rowGB2] [rowGB1] = [rowGB2] ∧
    merge_history [rowGB1] [rowGB2] ≠ merge_history [rowGB2] [rowGB1] := by
  have hk : keyGD rowGB2 = keyGD rowGB1 := by decide
  have h1 : merge_history [rowGB1] [rowGB2] = [rowGB1] := by
    simp [merge_history, dedupBy, dedupAux, hk]
  have h2 : merge_history [rowGB2] [rowGB1] = [rowGB2] := by
    simp [merge_history, dedupBy, dedupAux, hk.symm]
  refine ⟨h1, by decide, h2, ?_⟩
  rw [h1, h2]
  intro hEq
  have : rowGB1 = rowGB2 := by simpa using hEq
  exact absurd (congrArg Row.Date this) (by decide)

/-- C3 amended.  When several rows collide on the deduplication key, the
merge keeps exactly one row: the *first* occurrence in concatenation order
(existing history rows precede the new batch, and `keep='first'` applies).
No preference sort on classification recency, scrape date or sub-category is
performed, so the survivor depends on the input row order. -/
theorem C3_keeps_first (hist batch : List Row) (r : Row)
    (h : r ∈ merge_history hist batch) :
    (hist ++ batch).find? (fun x => decide (keyGD x = keyGD r)) = some r :=
  dedupAux_keeps_first keyGD h

/-- Witness for C3: the surviving row of the concrete collision is found
first in the concatenated input. -/
theorem C3_witness :
    ([rowGB1] ++ [rowGB2]).find? (fun x => decide (keyGD x = keyGD rowGB1)) =
      some rowGB1 := by
  refine C3_keeps_first [rowGB1] [rowGB2] rowGB1 ?_
  have hk : keyGD rowGB2 = keyGD rowGB1 := by decide
  simp [merge_history, dedupBy, dedupAux, hk]

/-! ## C4 — normalize / display round trip -/

/-- C4 counterexample.  For the mandarin-box family the round trip fails:
at price $6 (a typical box price, < $15, no "ea" marker) `normalize_price`
divides by 1.81, but the display branch of `calculate_savings` classifies
the row as per-pound (the `price < 15` heuristic with category Produce) and
divides by 2.2046 instead of multiplying by 1.81.  The result is not within
1e-6 relative tolerance of the original price. -/
theorem C4_counterexample :
    strContains "mandarin oranges box" "mandarin" = true ∧
    (0 : ℚ) < 6 ∧
    ¬ |display_bench (normalize_price 6 "3lb box" "mandarin oranges box" "mandarin")
        6 "3lb box" "mandarin oranges box" "mandarin" "Produce 🥦" - 6| ≤
      6 * (1 / 1000000) := by
  refine ⟨by decide, by norm_num, ?_⟩
  have hval : display_bench (normalize_price 6 "3lb box" "mandarin oranges box" "mandarin")
      6 "3lb box" "mandarin oranges box" "mandarin" "Produce 🥦" =
      6 / 1.81 / 2.2046 := by
    simp +decide [display_bench, display_info, disp_is_pound, normalize_price,
      norm_is_pound]
  rw [hval, abs_sub_comm, abs_of_pos (by norm_num)]
  norm_num

/-- C4 amended.  The normalize-then-display round trip returns the original
magnitude (exactly, hence within any tolerance) only when the display branch
of the evaluator selects the same unit family as `normalize_price`:
unconditionally for the per-pound family (price text containing "/lb", item
not a ribs item, rule not mandarin/ribs), and for the mandarin-box,
ribs-swiss and per-100g families exactly when the display-side per-pound
heuristic `disp_is_pound` is off (and, for 100g, the normalize-side
heuristic `norm_is_pound` too).  The mandarin counterexample above shows it
fails otherwise. -/
theorem C4_roundtrip_amended :
    (∀ (price : ℚ) (txt item key cat : String), 0 < price →
      strContains txt "/lb" = true → strContains item "ribs" = false →
      strContains key "mandarin" = false → strContains key "ribs" = false →
      display_bench (normalize_price price txt item key) price txt item key cat
        = price) ∧
    (∀ (price : ℚ) (txt item key cat : String), 0 < price →
      strContains key "mandarin" = true →
      disp_is_pound price txt item cat = false →
      display_bench (normalize_price price txt item key) price txt item key cat
        = price) ∧
    (∀ (price : ℚ) (txt item key cat : String), 0 < price →
      strContains key "mandarin" = false → strContains key "ribs" = true →
      strContains item "swiss" = true →
      disp_is_pound price txt item cat = false →
      display_bench (normalize_price price txt item key) price txt item key cat
        = price) ∧
    (∀ (price : ℚ) (txt item key cat : String), 0 < price →
      (strContains txt "100 g" || strContains txt "100g") = true →
      norm_is_pound price txt key = false →
      disp_is_pound price txt item cat = false →
      strContains key "mandarin" = false →
      (strContains key "ribs" && strContains item "swiss") = false →
      display_bench (normalize_price price txt item key) price txt item key cat
        = price) := by
  refine ⟨?_, ?_, ?_, ?_⟩
  · intro price txt item key cat hp hlb hri hm hr
    have hnp : norm_is_pound price txt key = true := by
      unfold norm_is_pound
      simp [hlb]
    have hdp : disp_is_pound price txt item cat = true := by
      unfold disp_is_pound
      simp [hlb, hri]
    unfold display_bench display_info normalize_price
    simp only [hnp, hdp, hm, hr, if_true, Bool.false_and, if_false,
      Bool.false_eq_true, ite_true, ite_false]
    rw [mul_div_cancel_right₀ _ (by norm_num : (2.2046 : ℚ) ≠ 0)]
  · intro price txt item key cat hp hm hdp
    unfold display_bench display_info normalize_price
    simp only [hm, hdp, Bool.false_eq_true, ite_true, ite_false, if_true, if_false]
    rw [div_mul_cancel₀ _ (by norm_num : (1.81 : ℚ) ≠ 0)]
  · intro price txt item key cat hp hm hr hsw hdp
    unfold display_bench display_info normalize_price
    simp only [hm, hr, hsw, hdp, Bool.true_and, Bool.false_eq_true, ite_true,
      ite_false, if_true, if_false]
    rw [div_mul_cancel₀ _ (by norm_num : (0.6 : ℚ) ≠ 0)]
  · intro price txt item key cat hp h100 hnp hdp hm hrs
    unfold display_bench display_info normalize_price
    simp only [h100, hnp, hdp, hm, hrs, Bool.false_eq_true, ite_true, ite_false,
      if_true, if_false]
    rw [mul_div_cancel_right₀ _ (by norm_num : (10 : ℚ) ≠ 0)]

/-- Witness for C4 (amended): concrete per-pound round trip at $3 "/lb" with
the bacon rule. -/
theorem C4_witness :
    display_bench (normalize_price 3 "/lb" "bacon maple" "bacon") 3 "/lb"
      "bacon maple" "bacon" "Meat 🥩" = 3 :=
  C4_roundtrip_amended.1 3 "/lb" "bacon maple" "bacon" "Meat 🥩"
    (by norm_num) (by decide) (by decide) (by decide) (by decide)

/-! ## C5 — unparseable price handling -/

/-- C5 counterexample.  A scraped row whose price field has no extractable
numeric value ("price at deli") gets the sentinel price 0.0 but keeps its
original text — the display text is *not* "Check Store" (that text is used
only when every price field is missing/falsy) — and `clean_dataframe`
(line 90, `df[df['Price_Value'] > 0]`) *drops* the row before the history is
saved, contradicting "retained in the saved history … never dropped". -/
theorem C5_counterexample :
    (clean_price (some "price at deli")).2 = none ∧
    (mkDeal 1 "Sobeys" "Deli Ham" (some "price at deli") "2025-11-20").Price_Text
      ≠ "Check Store" ∧
    (mkDeal 1 "Sobeys" "Deli Ham" (some "price at deli") "2025-11-20").Price_Value
      = 0 ∧
    clean_dataframe_price_filter
      [mkDeal 1 "Sobeys" "Deli Ham" (some "price at deli") "2025-11-20"] = [] := by
  have hs : searchMulti (cleanChars "price at deli") = none := by decide
  have hn : searchNum (cleanChars "price at deli") = none := by decide
  have hcp : clean_price (some "price at deli") = (some "price at deli", none) := by
    simp [clean_price, priceOf, numOf, hs, hn]
  refine ⟨by rw [hcp], ?_, ?_, ?_⟩
  · simp [mkDeal, hcp]
  · simp [mkDeal, hcp]
  · have hv : (mkDeal 1 "Sobeys" "Deli Ham" (some "price at deli")
        "2025-11-20").Price_Value = 0 := by simp [mkDeal, hcp]
    simp [clean_dataframe_price_filter, hv]

/-- C5 amended.  For a scraped row whose price field yields no extractable
numeric value, the pipeline defaults the price to the sentinel 0.0; the
display text is "Check Store" only when every price field is missing or
falsy (otherwise the original text is kept); and the row is *excluded both*
from the saved history (dropped by the `Price_Value > 0` filter of
`clean_dataframe`) and from savings/deal evaluation (the `price > 0` guard
of `calculate_savings`). -/
theorem C5_amended (today : Nat) (store name validTo : String) (raw : Option String)
    (h : (clean_price raw).2 = none) :
    (mkDeal today store name raw validTo).Price_Value = 0 ∧
    ((clean_price raw).1 = none →
      (mkDeal today store name raw validTo).Price_Text = "Check Store") ∧
    (∀ rows : List Row,
      mkDeal today store name raw validTo ∉ clean_dataframe_price_filter rows) ∧
    (∀ stats locb : List (String × ℚ),
      calculate_savings_row stats locb (mkDeal today store name raw validTo) = none) := by
  have hv : (mkDeal today store name raw validTo).Price_Value = 0 := by
    simp [mkDeal, h]
  refine ⟨hv, ?_, ?_, ?_⟩
  · intro h1
    simp [mkDeal, h1]
  · intro rows hc
    rw [clean_dataframe_price_filter, List.mem_filter] at hc
    rw [hv] at hc
    exact absurd hc.2 (by norm_num)
  · intro stats locb
    unfold calculate_savings_row
    rw [hv]
    dsimp only
    split
    · rfl
    · split
      · rfl
      · split
        · rfl
        · norm_num

/-- Witness for C5 (amended) at the concrete unparseable row. -/
theorem C5_witness :
    (mkDeal 1 "Sobeys" "Deli Ham" (some "price at deli") "2025-11-20").Price_Value
      = 0 ∧
    calculate_savings_row [] []
      (mkDeal 1 "Sobeys" "Deli Ham" (some "price at deli") "2025-11-20") = none :=
  ⟨(C5_amended 1 "Sobeys" "Deli Ham" "2025-11-20" (some "price at deli")
      (by decide)).1,
   (C5_amended 1 "Sobeys" "Deli Ham" "2025-11-20" (some "price at deli")
      (by decide)).2.2.2 [] []⟩

/-! ## C8 — the strict 10% deal threshold -/

/-- `savings_pct = (final_bench - normalized_shelf_price) / final_bench`
(`src/dashboard.py` line 234). -/
def savings_pct (stats locb : List (String × ℚ)) (row : Row) (k : String) (sk : String) : ℚ :=
  ((final_bench stats locb k sk).1 -
    normalize_price row.Price_Value (strLower row.Price_Text) (strLower row.Item) k) /
  (final_bench stats locb k sk).1

/-- C8.  For a row that reaches the threshold check (not on the denylist,
matched to a rule, positive price, positive benchmark), the evaluator
surfaces it iff `savings_pct > 0.10` strictly or the item contains the
exempt keyword "squash": savings of exactly 10% is NOT flagged, savings of
10.01% is flagged, and a squash item is always included. -/
theorem C8_deal_threshold (stats locb : List (String × ℚ)) (row : Row)
    (k sk cat : String)
    (hskip1 : (strContains (strLower row.Item) "water" ||
      strContains (strLower row.Item) "foil" ||
      strContains (strLower row.Item) "pan") = false)
    (hskip2 : (strContains (strLower row.Item) "coffee" &&
      strContains (strLower row.Item) "roast") = false)
    (hmatch : matchRule (strLower row.Item) row.Price_Value get_rules = some (k, sk, cat))
    (hprice : 0 < row.Price_Value)
    (hbench : 0 < (final_bench stats locb k sk).1) :
    (calculate_savings_row stats locb row ≠ none ↔
      ((0.10 : ℚ) < savings_pct stats locb row k sk ∨
        strContains (strLower row.Item) "squash" = true)) ∧
    (savings_pct stats locb row k sk = 0.10 →
      strContains (strLower row.Item) "squash" = false →
      calculate_savings_row stats locb row = none) ∧
    (savings_pct stats locb row k sk = 0.1001 →
      calculate_savings_row stats locb row ≠ none) ∧
    (strContains (strLower row.Item) "squash" = true →
      calculate_savings_row stats locb row ≠ none) := by
  have hiff : calculate_savings_row stats locb row ≠ none ↔
      ((0.10 : ℚ) < savings_pct stats locb row k sk ∨
        strContains (strLower row.Item) "squash" = true) := by
    unfold calculate_savings_row savings_pct
    dsimp only
    simp only [hskip1, hskip2, Bool.false_eq_true, if_false, hmatch,
      if_pos hprice, if_pos hbench, Bool.or_eq_true, decide_eq_true_eq]
    split
    · simp_all
    · simp_all
  refine ⟨hiff, ?_, ?_, ?_⟩
  · intro h10 hsq
    by_contra hne
    rcases hiff.mp hne with hlt | hs
    · rw [h10] at hlt
      exact lt_irrefl _ hlt
    · rw [hsq] at hs
      exact Bool.false_ne_true hs
  · intro hval
    refine hiff.mpr (Or.inl ?_)
    rw [hval]
    norm_num
  · intro hsq
    exact hiff.mpr (Or.inr hsq)

/-- A concrete butter row priced so that the savings come out at exactly
10.01% against a local benchmark of 10000/8999. -/
def rowButter : Row :=
  { Date := 1, Store := "Sobeys", Original_Name := "Butter Salted"
    Item := "Butter Salted", Price_Text := "$1.00 ea", Price_Value := 1
    Valid_Until := "2025-11-20", Category := "Dairy & Eggs", Is_Deal := false }

/-- Witness for C8: the concrete butter row at exactly 10.01% savings is
surfaced. -/
theorem C8_witness :
    calculate_savings_row [] [("butter", (10000 / 8999 : ℚ))] rowButter ≠ none := by
  have hfb : final_bench [] [("butter", (10000 / 8999 : ℚ))] "butter"
      "Butter, 454 grams 5" = (10000 / 8999, "Seton Avg") := by
    unfold final_bench
    have hl : List.lookup "butter" [("butter", (10000 / 8999 : ℚ))] =
        some (10000 / 8999) := by
      simp [List.lookup]
    rw [hl]
    dsimp only
    rw [if_pos (by norm_num)]
  have hnorm : normalize_price rowButter.Price_Value (strLower rowButter.Price_Text)
      (strLower rowButter.Item) "butter" = 1 := by
    simp +decide [normalize_price, norm_is_pound, rowButter]
  have hsav : savings_pct [] [("butter", (10000 / 8999 : ℚ))] rowButter "butter"
      "Butter, 454 grams 5" = 0.1001 := by
    unfold savings_pct
    rw [hfb, hnorm]
    norm_num
  exact (C8_deal_threshold [] [("butter", (10000 / 8999 : ℚ))] rowButter
      "butter" "Butter, 454 grams 5" "Dairy 🧀"
      (by decide) (by decide) (by decide) (by norm_num [rowButter])
      (by rw [hfb]; norm_num)).2.2.1 hsav

/-! ## Lemmas about the classification cache -/

lemma updateCache_apply_ne (results : List GroceryItem) (n : String) :
    ∀ cache : String → Option CacheEntry,
    (∀ item ∈ results, item.original_name ≠ n) →
    updateCache cache results n = cache n := by
  induction results with
  | nil => intro cache _; rfl
  | cons item rest ih =>
    intro cache h
    simp only [updateCache, List.foldl_cons]
    have step := ih (dictInsert cache item.original_name
      { Item := item.clean_name, Category := item.category })
      fun i hi => h i (List.mem_cons_of_mem _ hi)
    simp only [updateCache] at step
    rw [step, dictInsert,
      if_neg fun e => h item (List.mem_cons_self _ _) e.symm]

lemma not_mem_runBatches (classify : List String → Option (List GroceryItem))
    (batches : List (List String)) (n : String)
    (h : ∀ (b : List String) (rs : List GroceryItem), classify b = some rs →
      n ∉ rs.map GroceryItem.original_name) :
    ∀ item ∈ runBatches classify batches, item.original_name ≠ n := by
  induction batches with
  | nil => simp [runBatches]
  | cons b rest ih =>
    intro item hitem
    rw [runBatches] at hitem
    rcases List.mem_append.mp hitem with h1 | h2
    · cases hcb : classify b with
      | none => rw [hcb] at h1; simp at h1
      | some rs =>
        rw [hcb] at h1
        intro he
        exact h b rs hcb (by rw [← he]; exact List.mem_map_of_mem _ h1)
    · exact ih item h2

/-! ## C9 — classification failure is recovered, not fatal -/

/-- C9.  When an external classification call fails for a batch
(`classify b = none`), the run does not abort: the remaining batches are
still processed (`runBatches` simply skips the failed batch), and any deal
row whose name got no successful classification (and was not already cached)
ends with `Category = "Uncategorized"` and `Is_Deal = false`, while still
appearing in the categorized output. -/
theorem C9_failure_recovery :
    (∀ (classify : List String → Option (List GroceryItem)) (b : List String)
      (rest : List (List String)), classify b = none →
      runBatches classify (b :: rest) = runBatches classify rest) ∧
    (∀ (cache₀ : String → Option CacheEntry) (uniqueNames : List String)
      (classify : List String → Option (List GroceryItem)) (deals : List Row)
      (d : Row), d ∈ deals → cache₀ d.Original_Name = none →
      (∀ (b : List String) (rs : List GroceryItem), classify b = some rs →
        d.Original_Name ∉ rs.map GroceryItem.original_name) →
      (applyCache (pipelineCache cache₀ uniqueNames classify) d).Category
          = "Uncategorized" ∧
      (applyCache (pipelineCache cache₀ uniqueNames classify) d).Is_Deal = false ∧
      applyCache (pipelineCache cache₀ uniqueNames classify) d ∈
        categorizeDeals cache₀ uniqueNames classify deals) := by
  constructor
  · intro classify b rest hb
    rw [runBatches, hb]
    rfl
  · intro cache₀ uniqueNames classify deals d hd hc0 hfail
    have hmiss : pipelineCache cache₀ uniqueNames classify d.Original_Name = none := by
      show updateCache cache₀
        (runBatches classify
          (chunksOf 100 (uniqueNames.filter fun n => (cache₀ n).isNone)))
        d.Original_Name = none
      rw [updateCache_apply_ne _ _ _
        (not_mem_runBatches classify _ d.Original_Name hfail)]
      exact hc0
    refine ⟨?_, ?_, ?_⟩
    · rw [applyCache, hmiss]
    · rw [applyCache, hmiss]
    · exact List.mem_map_of_mem _ hd

/-- Witness for C9: a single "Mystery Item" row, an empty starting cache and
a classifier that always fails. -/
theorem C9_witness :
    (applyCache (pipelineCache (fun _ => none) ["Mystery Item"] (fun _ => none))
        rowGB1).Category = "Uncategorized" ∧
    (applyCache (pipelineCache (fun _ => none) ["Mystery Item"] (fun _ => none))
        rowGB1).Is_Deal = false := by
  have h := (C9_failure_recovery.2 (fun _ => none) ["Mystery Item"]
    (fun _ => none) [rowGB1] rowGB1 (List.mem_singleton.mpr rfl) rfl
    (fun b rs hbs => by simp at hbs))
  exact ⟨h.1, h.2.1⟩

/-! ## C10 — Is_Deal comes from cache membership only -/

/-- Equality of classifier outputs up to the `is_deal` flag. -/
def itemEqNoDeal (i₁ i₂ : GroceryItem) : Prop :=
  i₁.original_name = i₂.original_name ∧ i₁.clean_name = i₂.clean_name ∧
    i₁.category = i₂.category

/-- Classifier outputs related up to the `is_deal` flag (a failed call on
one side must fail on the other). -/
def optRelNoDeal : Option (List GroceryItem) → Option (List GroceryItem) → Prop
  | none, none => True
  | some r₁, some r₂ => List.Forall₂ itemEqNoDeal r₁ r₂
  | _, _ => False

lemma updateCache_congr_noDeal {r₁ r₂ : List GroceryItem}
    (h : List.Forall₂ itemEqNoDeal r₁ r₂) :
    ∀ cache : String → Option CacheEntry,
      updateCache cache r₁ = updateCache cache r₂ := by
  induction h with
  | nil => intro cache; rfl
  | cons hab hrest ih =>
    intro cache
    simp only [updateCache, List.foldl_cons]
    rw [hab.1, hab.2.1, hab.2.2]
    exact ih _

lemma runBatches_congr_noDeal
    (classify₁ classify₂ : List String → Option (List GroceryItem))
    (h : ∀ b : List String, optRelNoDeal (classify₁ b) (classify₂ b)) :
    ∀ batches : List (List String),
      List.Forall₂ itemEqNoDeal (runBatches classify₁ batches)
        (runBatches classify₂ batches) := by
  intro batches
  induction batches with
  | nil => exact List.Forall₂.nil
  | cons b rest ih =>
    rw [runBatches, runBatches]
    refine List.rel_append ?_ ih
    have hb := h b
    cases h₁ : classify₁ b with
    | none =>
      cases h₂ : classify₂ b with
      | none => exact List.Forall₂.nil
      | some r₂ =>
        rw [h₁, h₂] at hb
        simp [optRelNoDeal] at hb
    | some r₁ =>
      cases h₂ : classify₂ b with
      | none =>
        rw [h₁, h₂] at hb
        simp [optRelNoDeal] at hb
      | some r₂ =>
        rw [h₁, h₂] at hb
        simpa [optRelNoDeal] using hb

/-- C10.  In the main scrape pipeline a deal row is assigned
`Is_Deal = True` exactly when its `Original_Name` resolves through the
classification cache, and `Is_Deal = False` otherwise; the `is_deal` flag
returned by the classifier is never stored in the cache nor consulted —
two classifiers that agree except on `is_deal` produce identical
categorized output. -/
theorem C10_cache_isdeal :
    (∀ (cache : String → Option CacheEntry) (deal : Row),
      ((cache deal.Original_Name).isSome → (applyCache cache deal).Is_Deal = true) ∧
      (cache deal.Original_Name = none → (applyCache cache deal).Is_Deal = false)) ∧
    (∀ (cache₀ : String → Option CacheEntry) (uniqueNames : List String)
      (classify₁ classify₂ : List String → Option (List GroceryItem))
      (deals : List Row),
      (∀ b : List String, optRelNoDeal (classify₁ b) (classify₂ b)) →
      categorizeDeals cache₀ uniqueNames classify₁ deals =
        categorizeDeals cache₀ uniqueNames classify₂ deals) := by
  constructor
  · intro cache deal
    constructor
    · intro hsome
      rw [applyCache]
      cases hres : cache deal.Original_Name with
      | none => rw [hres] at hsome; simp [Option.isSome] at hsome
      | some data => rfl
    · intro hnone
      rw [applyCache, hnone]
  · intro cache₀ uniqueNames classify₁ classify₂ deals h
    have hpc : pipelineCache cache₀ uniqueNames classify₁ =
        pipelineCache cache₀ uniqueNames classify₂ := by
      show updateCache cache₀ (runBatches classify₁
          (chunksOf 100 (uniqueNames.filter fun n => (cache₀ n).isNone))) =
        updateCache cache₀ (runBatches classify₂
          (chunksOf 100 (uniqueNames.filter fun n => (cache₀ n).isNone)))
      exact updateCache_congr_noDeal
        (runBatches_congr_noDeal classify₁ classify₂ h _) cache₀
    rw [categorizeDeals, categorizeDeals, hpc]

/-- A classifier stub that recognizes only the batch `["Apple 3lb"]` and
flags it as a standout deal. -/
def classifyA : List String → Option (List GroceryItem) :=
  fun b => if b = ["Apple 3lb"] then
    some [{ original_name := "Apple 3lb", clean_name := "Apples"
            category := "Produce", is_deal := true }]
  else none

/-- The same classifier stub with the `is_deal` flag flipped to `false`. -/
def classifyB : List String → Option (List GroceryItem) :=
  fun b => if b = ["Apple 3lb"] then
    some [{ original_name := "Apple 3lb", clean_name := "Apples"
            category := "Produce", is_deal := false }]
  else none

/-- Witness for C10: an uncached row gets `Is_Deal = false`, and the two
concrete classifiers differing only in `is_deal` yield identical output. -/
theorem C10_witness :
    (applyCache (fun _ => none) rowGB1).Is_Deal = false ∧
    categorizeDeals (fun _ => none) ["Apple 3lb"] classifyA [rowGB1] =
      categorizeDeals (fun _ => none) ["Apple 3lb"] classifyB [rowGB1] := by
  constructor
  · exact (C10_cache_isdeal.1 (fun _ => none) rowGB1).2 rfl
  · refine C10_cache_isdeal.2 (fun _ => none) ["Apple 3lb"] classifyA classifyB
      [rowGB1] ?_
    intro b
    by_cases hb : b = ["Apple 3lb"]
    · subst hb
      show optRelNoDeal (classifyA ["Apple 3lb"]) (classifyB ["Apple 3lb"])
      rw [classifyA, classifyB]
      simp only [if_pos rfl]
      show List.Forall₂ itemEqNoDeal _ _
      refine List.Forall₂.cons ?_ List.Forall₂.nil
      exact ⟨rfl, rfl, rfl⟩
    · show optRelNoDeal (classifyA b) (classifyB b)
      rw [classifyA, classifyB]
      simp only [if_neg hb]
      trivial

/-! ## C6 / C7 — the price parser on multi-buy strings

The input shapes "N/$T" and "N for $T" of the claim, as character lists. -/

/-- The separator of a multi-buy string: `"/"` or `" for "`. -/
def sepL (useFor : Bool) : List Char :=
  if useFor then [' ', 'f', 'o', 'r', ' '] else ['/']

/-- The optional decimal fraction of the total: `""` or `"." ++ digits`. -/
def fracL : Option (List Char) → List Char
  | some fd => '.' :: fd
  | none => []

/-- The raw multi-buy string `N sep $T` as a character list. -/
def mbString (d1 d2 : List Char) (f : Option (List Char)) (useFor : Bool) :
    List Char :=
  d1 ++ sepL useFor ++ '$' :: (d2 ++ fracL f)

lemma isDig_cases {c : Char} (h : isDig c = true) :
    c = '0' ∨ c = '1' ∨ c = '2' ∨ c = '3' ∨ c = '4' ∨
    c = '5' ∨ c = '6' ∨ c = '7' ∨ c = '8' ∨ c = '9' := by
  simp only [isDig, Bool.or_eq_true, decide_eq_true_eq] at h
  tauto

lemma isDig_facts {c : Char} (h : isDig c = true) :
    lowerChar c = c ∧ c ≠ '$' ∧ c ≠ 'Â' ∧ isPySpace c = false := by
  rcases isDig_cases h with rfl | rfl | rfl | rfl | rfl | rfl | rfl | rfl | rfl | rfl <;>
    exact ⟨by decide, by decide, by decide, by decide⟩

lemma removeCent_id (l : List Char) (h : ∀ c ∈ l, c ≠ 'Â') : removeCent l = l := by
  induction l with
  | nil => rfl
  | cons c t ih =>
    cases t with
    | nil => rfl
    | cons c₂ t₂ =>
      rw [removeCent, if_neg]
      · exact congrArg _ (ih fun x hx => h x (List.mem_cons_of_mem _ hx))
      · rintro ⟨hc, -⟩
        exact h c (List.mem_cons_self _ _) hc

lemma pyLower_id (l : List Char) (h : ∀ c ∈ l, lowerChar c = c) :
    pyLower l = l := by
  induction l with
  | nil => rfl
  | cons c t ih =>
    rw [pyLower, List.map_cons, h c (List.mem_cons_self _ _)]
    exact congrArg _ (ih fun x hx => h x (List.mem_cons_of_mem _ hx))

lemma dropWhile_eq_self_of_head (p : Char → Bool) (l : List Char)
    (h : ∀ c, l.head? = some c → p c = false) : l.dropWhile p = l := by
  cases l with
  | nil => rfl
  | cons c t =>
    rw [List.dropWhile_cons, h c rfl]
    simp

lemma pyStrip_eq_self (l : List Char)
    (h1 : ∀ c, l.head? = some c → isPySpace c = false)
    (h2 : ∀ c, l.getLast? = some c → isPySpace c = false) : pyStrip l = l := by
  rw [pyStrip, dropWhile_eq_self_of_head _ _ h1, dropWhile_eq_self_of_head, List.reverse_reverse]
  intro c hc
  rw [List.head?_reverse] at hc
  exact h2 c hc

lemma takeDigits_append (d rest : List Char) (hd : ∀ c ∈ d, isDig c = true)
    (hrest : ∀ c, rest.head? = some c → isDig c = false) :
    takeDigits (d ++ rest) = (d, rest) := by
  induction d with
  | nil =>
    cases rest with
    | nil => rfl
    | cons r rt =>
      rw [List.nil_append, takeDigits]
      rw [hrest r rfl]
      simp
  | cons c ct ih =>
    rw [List.cons_append, takeDigits, if_pos (hd c (List.mem_cons_self _ _))]
    rw [ih fun x hx => hd x (List.mem_cons_of_mem _ hx)]

lemma sepL_facts (useFor : Bool) :
    ∀ c ∈ sepL useFor, c ≠ 'Â' ∧ lowerChar c = c ∧ c ≠ '$' := by
  cases useFor <;> decide

lemma getLast?_digit (l : List Char) (hne : l ≠ [])
    (h : ∀ c ∈ l, isDig c = true) :
    ∃ c, l.getLast? = some c ∧ isDig c = true := by
  refine ⟨l.getLast hne, ?_, h _ (List.getLast_mem hne)⟩
  exact Option.mem_def.mp (List.getLast_mem_getLast? hne)

lemma clean_mbString (d1 d2 : List Char) (f : Option (List Char)) (useFor : Bool)
    (h1 : ∀ c ∈ d1, isDig c = true) (hd1 : d1 ≠ [])
    (h2 : ∀ c ∈ d2, isDig c = true) (hd2 : d2 ≠ [])
    (hf : ∀ fd, f = some fd → (∀ c ∈ fd, isDig c = true) ∧ fd ≠ []) :
    cleanChars (String.mk (mbString d1 d2 f useFor)) =
      d1 ++ sepL useFor ++ (d2 ++ fracL f) := by
  have htl : (String.mk (mbString d1 d2 f useFor)).toList = mbString d1 d2 f useFor :=
    rfl
  have hfrac_chars : ∀ c ∈ fracL f, c = '.' ∨ isDig c = true := by
    intro c hc
    cases hfv : f with
    | none => rw [hfv] at hc; simp [fracL] at hc
    | some fd =>
      rw [hfv] at hc
      rcases List.mem_cons.mp hc with rfl | hmem
      · exact Or.inl rfl
      · exact Or.inr ((hf fd hfv).1 c hmem)
  have hD : removeDollar (mbString d1 d2 f useFor) =
      d1 ++ sepL useFor ++ (d2 ++ fracL f) := by
    unfold mbString removeDollar
    simp only [List.append_assoc, List.filter_append, List.filter_cons]
    have e1 : List.filter (fun c => decide (c ≠ '$')) d1 = d1 :=
      List.filter_eq_self.mpr fun c hc => decide_eq_true (isDig_facts (h1 c hc)).2.1
    have e2 : List.filter (fun c => decide (c ≠ '$')) (sepL useFor) = sepL useFor :=
      List.filter_eq_self.mpr fun c hc => decide_eq_true (sepL_facts useFor c hc).2.2
    have e3 : List.filter (fun c => decide (c ≠ '$')) d2 = d2 :=
      List.filter_eq_self.mpr fun c hc => decide_eq_true (isDig_facts (h2 c hc)).2.1
    have e4 : List.filter (fun c => decide (c ≠ '$')) (fracL f) = fracL f := by
      refine List.filter_eq_self.mpr fun c hc => decide_eq_true ?_
      rcases hfrac_chars c hc with rfl | hd
      · decide
      · exact (isDig_facts hd).2.1
    rw [e1, e2, e3, e4]
    simp
  have hC : removeCent (d1 ++ sepL useFor ++ (d2 ++ fracL f)) =
      d1 ++ sepL useFor ++ (d2 ++ fracL f) := by
    refine removeCent_id _ fun c hc => ?_
    simp only [List.append_assoc, List.mem_append] at hc
    rcases hc with hc | hc | hc | hc
    · exact (isDig_facts (h1 c hc)).2.2.1
    · exact (sepL_facts useFor c hc).1
    · exact (isDig_facts (h2 c hc)).2.2.1
    · rcases hfrac_chars c hc with rfl | hd
      · decide
      · exact (isDig_facts hd).2.2.1
  have hL : pyLower (d1 ++ sepL useFor ++ (d2 ++ fracL f)) =
      d1 ++ sepL useFor ++ (d2 ++ fracL f) := by
    refine pyLower_id _ fun c hc => ?_
    simp only [List.append_assoc, List.mem_append] at hc
    rcases hc with hc | hc | hc | hc
    · exact (isDig_facts (h1 c hc)).1
    · exact (sepL_facts useFor c hc).2.1
    · exact (isDig_facts (h2 c hc)).1
    · rcases hfrac_chars c hc with rfl | hd
      · decide
      · exact (isDig_facts hd).1
  have hS : pyStrip (d1 ++ sepL useFor ++ (d2 ++ fracL f)) =
      d1 ++ sepL useFor ++ (d2 ++ fracL f) := by
    refine pyStrip_eq_self _ ?_ ?_
    · intro c hc
      cases d1 with
      | nil => exact absurd rfl hd1
      | cons a t =>
        simp only [List.cons_append, List.head?_cons, Option.some.injEq] at hc
        subst hc
        exact (isDig_facts (h1 a (List.mem_cons_self _ _))).2.2.2
    · intro c hc
      cases hfv : f with
      | none =>
        obtain ⟨x, hx, hdx⟩ := getLast?_digit d2 hd2 h2
        rw [hfv] at hc
        simp only [fracL, List.append_nil, List.getLast?_append, hx,
          Option.or_some] at hc
        cases hc
        exact (isDig_facts hdx).2.2.2
      | some fd =>
        obtain ⟨x, hx, hdx⟩ := getLast?_digit fd (hf fd hfv).2 (hf fd hfv).1
        rw [hfv] at hc
        have hcons : ('.' :: fd : List Char) = ['.'] ++ fd := rfl
        simp only [fracL, hcons, List.getLast?_append, hx, Option.or_some] at hc
        cases hc
        exact (isDig_facts hdx).2.2.2
  rw [cleanChars, htl, hD, hC, hL, hS]

lemma skipDollar_digit {c : Char} (h : isDig c = true) (t : List Char) :
    skipDollar (c :: t) = c :: t := by
  rcases isDig_cases h with rfl | rfl | rfl | rfl | rfl | rfl | rfl | rfl | rfl | rfl <;>
    rfl

/-- The input left after the separator alternation: the `" for "` form still
carries its trailing space. -/
def dropWsTail (useFor : Bool) (l : List Char) : List Char :=
  if useFor then ' ' :: l else l

lemma matchMultiAt_parts (d1 d2 : List Char) (f : Option (List Char)) (useFor : Bool)
    (h1 : ∀ c ∈ d1, isDig c = true) (hd1 : d1 ≠ [])
    (h2 : ∀ c ∈ d2, isDig c = true) (hd2 : d2 ≠ [])
    (hf : ∀ fd, f = some fd → (∀ c ∈ fd, isDig c = true) ∧ fd ≠ []) :
    matchMultiAt (d1 ++ sepL useFor ++ (d2 ++ fracL f)) = some (d1, d2, f) := by
  obtain ⟨b, u, rfl⟩ : ∃ b u, d2 = b :: u := by
    cases d2 with
    | nil => exact absurd rfl hd2
    | cons b u => exact ⟨b, u, rfl⟩
  have hsep_head : ∀ c, (sepL useFor ++ (b :: u ++ fracL f)).head? = some c →
      isDig c = false := by
    intro c hc
    cases useFor
    · simp [sepL] at hc
      subst hc
      decide
    · simp [sepL] at hc
      subst hc
      decide
  have ht1 : takeDigits (d1 ++ (sepL useFor ++ (b :: u ++ fracL f))) =
      (d1, sepL useFor ++ (b :: u ++ fracL f)) :=
    takeDigits_append _ _ h1 hsep_head
  have hfrac_head : ∀ c, (fracL f).head? = some c → isDig c = false := by
    intro c hc
    cases hfv : f with
    | none => rw [hfv] at hc; simp [fracL] at hc
    | some fd =>
      rw [hfv] at hc
      simp only [fracL, List.head?_cons, Option.some.injEq] at hc
      rw [← hc]
      decide
  have ht2 : takeDigits (b :: u ++ fracL f) = (b :: u, fracL f) :=
    takeDigits_append _ _ h2 hfrac_head
  have hmf : matchFrac (fracL f) = f := by
    cases hfv : f with
    | none => rfl
    | some fd =>
      obtain ⟨hfd, hfdne⟩ := hf fd hfv
      have htfd : takeDigits fd = (fd, []) := by
        have := takeDigits_append fd [] hfd (by intro c hc; simp at hc)
        rwa [List.append_nil] at this
      obtain ⟨x, y, rfl⟩ : ∃ x y, fd = x :: y := by
        cases fd with
        | nil => exact absurd rfl hfdne
        | cons x y => exact ⟨x, y, rfl⟩
      simp only [fracL, matchFrac, htfd]
      rfl
  unfold matchMultiAt
  rw [List.append_assoc, ht1]
  cases d1 with
  | nil => exact absurd rfl hd1
  | cons a t =>
    simp only [List.isEmpty_cons, Bool.false_eq_true, if_false]
    have hsp1 : isPySpace '/' = false := by decide
    have hsp2 : isPySpace 'f' = false := by decide
    have hsp3 : isPySpace ' ' = true := by decide
    have hsep : matchSep (dropWs (sepL useFor ++ (b :: u ++ fracL f))) =
        some (dropWsTail useFor (b :: u ++ fracL f)) := by
      cases useFor <;>
        simp [sepL, dropWs, List.dropWhile_cons, matchSep, dropWsTail,
          hsp1, hsp2, hsp3]
    rw [hsep]
    have hrest : dropWs (dropWsTail useFor (b :: u ++ fracL f)) =
        b :: u ++ fracL f := by
      have hb : isPySpace b = false := (isDig_facts (h2 b (List.mem_cons_self _ _))).2.2.2
      cases useFor <;>
        simp [dropWsTail, dropWs, List.dropWhile_cons, hb, hsp3]
    dsimp only
    rw [hrest]
    rw [List.cons_append] at ht2 ⊢
    rw [skipDollar_digit (h2 b (List.mem_cons_self _ _)), ht2]
    simp only [List.isEmpty_cons, Bool.false_eq_true, if_false, hmf]

lemma searchMulti_parts (d1 d2 : List Char) (f : Option (List Char)) (useFor : Bool)
    (h1 : ∀ c ∈ d1, isDig c = true) (hd1 : d1 ≠ [])
    (h2 : ∀ c ∈ d2, isDig c = true) (hd2 : d2 ≠ [])
    (hf : ∀ fd, f = some fd → (∀ c ∈ fd, isDig c = true) ∧ fd ≠ []) :
    searchMulti (d1 ++ sepL useFor ++ (d2 ++ fracL f)) = some (d1, d2, f) := by
  have hm := matchMultiAt_parts d1 d2 f useFor h1 hd1 h2 hd2 hf
  cases d1 with
  | nil => exact absurd rfl hd1
  | cons a t =>
    rw [List.append_assoc, List.cons_append] at hm ⊢
    have hstep : searchMulti (a :: (t ++ (sepL useFor ++ (d2 ++ fracL f)))) =
        match matchMultiAt (a :: (t ++ (sepL useFor ++ (d2 ++ fracL f)))) with
        | some r => some r
        | none => searchMulti (t ++ (sepL useFor ++ (d2 ++ fracL f))) := rfl
    rw [hstep, hm]

/-- C6.  For every raw price string of the multi-buy shape "N/$T" or
"N for $T" — digit run `d1` for N, digit run `d2` with optional fraction `f`
for T — with quantity N > 0, `clean_price` returns the original text as
display text and the unit price T / N. -/
theorem C6_multibuy (d1 d2 : List Char) (f : Option (List Char)) (useFor : Bool)
    (h1 : ∀ c ∈ d1, isDig c = true) (hd1 : d1 ≠ [])
    (h2 : ∀ c ∈ d2, isDig c = true) (hd2 : d2 ≠ [])
    (hf : ∀ fd, f = some fd → (∀ c ∈ fd, isDig c = true) ∧ fd ≠ [])
    (hq : 0 < digitsToNat d1) :
    clean_price (some (String.mk (mbString d1 d2 f useFor))) =
      (some (String.mk (mbString d1 d2 f useFor)),
        some (numValQ false d2 f / (digitsToNat d1 : ℚ))) := by
  have hne : String.mk (mbString d1 d2 f useFor) ≠ "" := by
    intro he
    have hdata : mbString d1 d2 f useFor = [] := congrArg String.data he
    unfold mbString at hdata
    cases d1 with
    | nil => exact hd1 rfl
    | cons a t => simp at hdata
  have hclean := clean_mbString d1 d2 f useFor h1 hd1 h2 hd2 hf
  have hsm := searchMulti_parts d1 d2 f useFor h1 hd1 h2 hd2 hf
  rw [clean_price, if_neg hne, hclean, priceOf, hsm]
  dsimp only
  rw [if_pos hq]

/-- Witness for C6: "2/$5" parses to 5/2. -/
theorem C6_witness :
    clean_price (some (String.mk (mbString ['2'] ['5'] none false))) =
      (some (String.mk (mbString ['2'] ['5'] none false)),
        some (numValQ false ['5'] none / (digitsToNat ['2'] : ℚ))) :=
  C6_multibuy ['2'] ['5'] none false (by decide) (by decide) (by decide)
    (by decide) (by intro fd h; cases h) (by decide)

/-! ## C7 — the two documented parser edge cases -/

/-- C7 counterexample.  "$10" does parse to 10.0, but "99¢/100g" parses to
99.0, not the claimed 0.99: the code strips only the mojibake sequence
"Â¢" (so the cent sign stays in the text), no cent→dollar conversion exists
anywhere, and the first numeric token is "99". -/
theorem C7_counterexample :
    (clean_price (some "99¢/100g")).2 = some 99 ∧
    (clean_price (some "99¢/100g")).2 ≠ some (0.99 : ℚ) := by
  have h1 : searchMulti (cleanChars "99¢/100g") = none := by decide
  have h2 : searchNum (cleanChars "99¢/100g") = some (false, ['9', '9'], none) := by
    decide
  have h3 : digitsToNat ['9', '9'] = 99 := by decide
  have hv : (clean_price (some "99¢/100g")).2 = some 99 := by
    simp [clean_price, priceOf, numOf, h1, h2, numValQ, h3]
  refine ⟨hv, ?_⟩
  rw [hv]
  intro he
  have : (99 : ℚ) = 0.99 := Option.some.inj he
  norm_num at this

/-- C7 amended.  The parser reproduces "$10" → 10.0; the input "99¢/100g"
parses to 99.0 (not 0.99): the cent sign is not stripped and no cent→dollar
conversion is applied, so the first numeric token "99" is taken at face
value. -/
theorem C7_edge_cases :
    clean_price (some "$10") = (some "$10", some 10) ∧
    clean_price (some "99¢/100g") = (some "99¢/100g", some 99) := by
  constructor
  · have h1 : searchMulti (cleanChars "$10") = none := by decide
    have h2 : searchNum (cleanChars "$10") = some (false, ['1', '0'], none) := by
      decide
    have h3 : digitsToNat ['1', '0'] = 10 := by decide
    simp [clean_price, priceOf, numOf, h1, h2, numValQ, h3]
  · have h1 : searchMulti (cleanChars "99¢/100g") = none := by decide
    have h2 : searchNum (cleanChars "99¢/100g") = some (false, ['9', '9'], none) := by
      decide
    have h3 : digitsToNat ['9', '9'] = 99 := by decide
    simp [clean_price, priceOf, numOf, h1, h2, numValQ, h3]
